import Mathlib

/-!
Shallow embedding of the Queryable REST-composition layer and the
configuration providers of the PnP-JS-Core subset under verification.

Sources embedded:
- src/src/sharepoint/rest/site.ts (the `Site` class, and the fields module
  holding `Fields` and `Field`),
- src/src/configuration/providers/spListConfigurationProvider.ts (which
  contains unresolved merge-conflict markers: both conflict branches are
  embedded side by side where both are meaningful),
- src/tests/sharepoint/views.test.ts (consulted only as documentation).

The `queryable.ts` base module and `cachingConfigurationProvider.ts` are not
part of the snapshot; the definitions derived from them are explicitly marked
as modelled from the spec.
-/

/-- Association-list lookup for string-keyed maps (JS object member access /
query-parameter maps). -/
def lookupEntry {α : Type} : List (String × α) → String → Option α
  | [], _ => none
  | (k0, v0) :: rest, k => if k0 = k then some v0 else lookupEntry rest k

/-- Last-write-wins insertion for string-keyed maps: an existing key keeps its
position and gets the new value, a fresh key is appended.  This is the JS
object-assignment / query-parameter overwrite semantics the spec describes
("keys unique - last write wins"). -/
def setEntry {α : Type} : List (String × α) → String → α → List (String × α)
  | [], k, v => [(k, v)]
  | (k0, v0) :: rest, k, v =>
      if k0 = k then (k, v) :: rest else (k0, v0) :: setEntry rest k v

/-- Modelled from the spec: queryable.ts is absent from src/.  Per spec 4.2 a
Queryable wraps a resolved URL (PathBuilder state) and a query-parameter
map. -/
structure Queryable where
  url : String
  query : List (String × String)
deriving Repr, DecidableEq

/-- Modelled from the spec: construction from a base URL string, optionally
descending into a relative path (spec 4.2, "initializes a root PathBuilder
from the base URL, optionally descending into relativePath"). -/
def queryableFromUrl (base : String) (path : Option String) : Queryable :=
  match path with
  | none => ⟨base, []⟩
  | some p => ⟨base ++ "/" ++ p, []⟩

/-- Modelled from the spec: construction from a parent Queryable copies the
parent's accumulated URL and query parameters and descends into the relative
path (spec 4.2, copy-on-derive). -/
def queryableFromParent (parent : Queryable) (path : Option String) : Queryable :=
  match path with
  | none => ⟨parent.url, parent.query⟩
  | some p => ⟨parent.url ++ "/" ++ p, parent.query⟩

/-- Modelled from the spec: toUrl resolves the accumulated URL (spec 8, the
Views test compares toUrl against the plain path). -/
def Queryable.toUrl (q : Queryable) : String := q.url

/-- Modelled from the spec: query.add sets a query parameter, overwriting a
parameter of the same name (spec 4.1/4.2). -/
def Queryable.addQuery (q : Queryable) (k v : String) : Queryable :=
  ⟨q.url, setEntry q.query k v⟩

/-- An HTTP request as handed to the transport collaborator (spec 6). -/
structure Request where
  method : String
  url : String
  query : List (String × String)
  headers : List (String × String)
  body : Option String
deriving Repr, DecidableEq

/-- The constructor of Site passes base URL and path through to
QueryableInstance (site.ts lines 17-19). -/
def Site.new (baseUrl : String) (path : Option String) : Queryable :=
  queryableFromUrl baseUrl path

/-- Site.getContextInfo (site.ts lines 32-35): builds a fresh
Site("_api/contextinfo"), ignoring the receiver, and posts to it. -/
def Site.getContextInfo (_site : Queryable) : Request :=
  let q := Site.new "_api/contextinfo" none
  { method := "POST", url := q.toUrl, query := q.query, headers := [], body := none }

/-- Site.getDocumentLibraries (site.ts lines 42-46): builds a fresh
Queryable on the fixed endpoint, ignoring the receiver, sets the query
parameter @v to the single-quoted argument URL, and issues a GET. -/
def Site.getDocumentLibraries (_site : Queryable) (absoluteWebUrl : String) : Request :=
  let q := (queryableFromUrl "_api/sp.web.getdocumentlibraries(@v)" none).addQuery
    "@v" ("\x27" ++ absoluteWebUrl ++ "\x27")
  { method := "GET", url := q.toUrl, query := q.query, headers := [], body := none }

/-- Site.getWebUrlFromPageUrl (site.ts lines 53-57): same shape as
getDocumentLibraries on its fixed endpoint. -/
def Site.getWebUrlFromPageUrl (_site : Queryable) (absolutePageUrl : String) : Request :=
  let q := (queryableFromUrl "_api/sp.web.getweburlfrompageurl(@v)" none).addQuery
    "@v" ("\x27" ++ absolutePageUrl ++ "\x27")
  { method := "GET", url := q.toUrl, query := q.query, headers := [], body := none }

/-- C10: Site.getContextInfo, getDocumentLibraries and getWebUrlFromPageUrl
ignore the receiving Site's own URL: any two Site instances issue identical
requests for the same arguments, against the fixed endpoints
"_api/contextinfo", "_api/sp.web.getdocumentlibraries(@v)" and
"_api/sp.web.getweburlfrompageurl(@v)", with the argument URL wrapped in
single quotes as the @v query parameter. -/
theorem C10_site_static_endpoints (s1 s2 : Queryable) (arg : String) :
    Site.getContextInfo s1 = Site.getContextInfo s2 ∧
    Site.getDocumentLibraries s1 arg = Site.getDocumentLibraries s2 arg ∧
    Site.getWebUrlFromPageUrl s1 arg = Site.getWebUrlFromPageUrl s2 arg ∧
    (Site.getContextInfo s1).url = "_api/contextinfo" ∧
    (Site.getContextInfo s1).method = "POST" ∧
    (Site.getDocumentLibraries s1 arg).url = "_api/sp.web.getdocumentlibraries(@v)" ∧
    (Site.getDocumentLibraries s1 arg).query = [("@v", "\x27" ++ arg ++ "\x27")] ∧
    (Site.getWebUrlFromPageUrl s1 arg).url = "_api/sp.web.getweburlfrompageurl(@v)" ∧
    (Site.getWebUrlFromPageUrl s1 arg).query = [("@v", "\x27" ++ arg ++ "\x27")] :=
  ⟨rfl, rfl, rfl, rfl, rfl, rfl, rfl, rfl, rfl⟩

/-- A JSON value as produced by the literals the fields module serializes
(strings, numbers, booleans, nested objects with insertion-ordered
members). -/
inductive JVal where
  | str : String → JVal
  | num : Int → JVal
  | bool : Bool → JVal
  | obj : List (String × JVal) → JVal
deriving Repr

/-- JSON string quoting; the strings the embedded call sites produce contain
no characters needing escapes, so plain quoting models JSON.stringify. -/
def jquote (s : String) : String := "\"" ++ s ++ "\""

mutual

/-- JSON.stringify on a JVal (member order is insertion order, as in JS). -/
def JVal.stringify : JVal → String
  | .str s => jquote s
  | .num n => toString n
  | .bool b => if b then "true" else "false"
  | .obj ms => "\x7b" ++ stringifyMembers ms ++ "\x7d"

/-- JSON.stringify on an object member list: comma-joined key:value pairs. -/
def stringifyMembers : List (String × JVal) → String
  | [] => ""
  | [(k, v)] => jquote k ++ ":" ++ JVal.stringify v
  | (k, v) :: m :: rest =>
      jquote k ++ ":" ++ JVal.stringify v ++ "," ++ stringifyMembers (m :: rest)

end

/-- Util.extend(target, source): copies the source object's members onto the
target, overwriting members of the same name (Object.assign semantics). -/
def extendObj (target source : List (String × JVal)) : List (String × JVal) :=
  source.foldl (fun acc kv => setEntry acc kv.1 kv.2) target

/-- The constructor of Fields passes the base through with default path
"fields" (site.ts fields module, constructor): variant over a parent
Queryable. -/
def Fields.newFromParent (parent : Queryable) (path : String) : Queryable :=
  queryableFromParent parent (some path)

/-- The constructor of Fields over a base URL string with the given path
(default "fields" at call sites). -/
def Fields.newFromUrl (baseUrl : String) (path : String) : Queryable :=
  queryableFromUrl baseUrl (some path)

/-- The constructor of Field accepts a path argument but calls super(baseUrl)
without it, so the path is dropped: variant over a parent Queryable. -/
def Field.newFromParent (parent : Queryable) (_path : Option String) : Queryable :=
  queryableFromParent parent none

/-- The constructor of Field over a base URL string; the path argument is
dropped just as in the parent-based variant. -/
def Field.newFromUrl (baseUrl : String) (_path : Option String) : Queryable :=
  queryableFromUrl baseUrl none

/-- Fields.getByTitle(title): new Field(this, "getByTitle(&#39;title&#39;)")
(the fields module, getByTitle). -/
def Fields.getByTitle (fields : Queryable) (title : String) : Queryable :=
  Field.newFromParent fields (some ("getByTitle(\x27" ++ title ++ "\x27)"))

/-- Fields.getById(id): new Field(this.toUrl().concat("(&#39;id&#39;)"))
(the fields module, getById). -/
def Fields.getById (fields : Queryable) (id : String) : Queryable :=
  Field.newFromUrl (fields.toUrl ++ "(\x27" ++ id ++ "\x27)") none

/-- The object serialized by Fields.add: Util.extend of the literal holding
the __metadata type tag and the Title onto which the supplied properties are
merged. -/
def Fields.addBodyObj (title fieldType : String)
    (properties : List (String × JVal)) : List (String × JVal) :=
  extendObj [("__metadata", .obj [("type", .str fieldType)]), ("Title", .str title)]
    properties

/-- Fields.add posts to the fields collection itself with the stringified
body. -/
def Fields.addRequest (fields : Queryable) (title fieldType : String)
    (properties : List (String × JVal)) : Request :=
  { method := "POST", url := fields.toUrl, query := fields.query, headers := [],
    body := some (JVal.stringify (.obj (Fields.addBodyObj title fieldType properties))) }

/-- The object serialized by Fields.createFieldAsXml: a single "parameters"
member wrapping Util.extend of the __metadata type tag with the schema
info. -/
def Fields.createFieldAsXmlBodyObj (info : List (String × JVal)) :
    List (String × JVal) :=
  [("parameters",
    .obj (extendObj
      [("__metadata", .obj [("type", .str "SP.XmlSchemaFieldCreationInformation")])]
      info))]

/-- Fields.createFieldAsXml posts to a child Fields(this, "createfieldasxml")
with the stringified wrapped body; a plain xml string argument becomes the
info object with a single SchemaXml member. -/
def Fields.createFieldAsXmlRequest (fields : Queryable)
    (info : List (String × JVal)) : Request :=
  let q := Fields.newFromParent fields "createfieldasxml"
  { method := "POST", url := q.toUrl, query := q.query, headers := [],
    body := some (JVal.stringify (.obj (Fields.createFieldAsXmlBodyObj info))) }

/-- Field.update(properties, fieldType): POST to the field itself with the
X-HTTP-Method MERGE header and the __metadata-tagged body. -/
def Field.updateRequest (field : Queryable) (properties : List (String × JVal))
    (fieldType : String) : Request :=
  { method := "POST", url := field.toUrl, query := field.query,
    headers := [("X-HTTP-Method", "MERGE")],
    body := some (JVal.stringify (.obj
      (extendObj [("__metadata", .obj [("type", .str fieldType)])] properties))) }

/-- Field.delete(): POST to the field itself with the X-HTTP-Method DELETE
header and no body. -/
def Field.deleteRequest (field : Queryable) : Request :=
  { method := "POST", url := field.toUrl, query := field.query,
    headers := [("X-HTTP-Method", "DELETE")], body := none }

/-- Field.setShowInDisplayForm(show): posts to new Field(this,
"setshowindisplayform(show)") — whose URL, the Field constructor dropping its
path, is the field's own URL. -/
def Field.setShowInDisplayFormRequest (field : Queryable) (b : Bool) : Request :=
  let q := Field.newFromParent field
    (some ("setshowindisplayform(" ++ (if b then "true" else "false") ++ ")"))
  { method := "POST", url := q.toUrl, query := q.query, headers := [], body := none }

/-- Field.setShowInEditForm(show): same shape as setShowInDisplayForm. -/
def Field.setShowInEditFormRequest (field : Queryable) (b : Bool) : Request :=
  let q := Field.newFromParent field
    (some ("setshowineditform(" ++ (if b then "true" else "false") ++ ")"))
  { method := "POST", url := q.toUrl, query := q.query, headers := [], body := none }

/-- Field.setShowInNewForm(show): same shape as setShowInDisplayForm. -/
def Field.setShowInNewFormRequest (field : Queryable) (b : Bool) : Request :=
  let q := Field.newFromParent field
    (some ("setshowinnewform(" ++ (if b then "true" else "false") ++ ")"))
  { method := "POST", url := q.toUrl, query := q.query, headers := [], body := none }

/-- C4: Field.update and Field.delete are issued as POST requests whose
headers carry X-HTTP-Method set exactly to MERGE respectively DELETE; no
other HTTP verb is used for them. -/
theorem C4_verb_tunneling (field : Queryable) (props : List (String × JVal))
    (ft : String) :
    (Field.updateRequest field props ft).method = "POST" ∧
    lookupEntry (Field.updateRequest field props ft).headers "X-HTTP-Method"
      = some "MERGE" ∧
    (Field.deleteRequest field).method = "POST" ∧
    lookupEntry (Field.deleteRequest field).headers "X-HTTP-Method"
      = some "DELETE" :=
  ⟨rfl, rfl, rfl, rfl⟩

/-- C9: the Field constructor drops its path argument, so a Field built on a
parent has the parent's URL, and the setShowIn-form helpers consequently post
to the field's own URL rather than to a sub-resource URL. -/
theorem C9_field_constructor_drops_path (p : Queryable) (s : Option String)
    (f : Queryable) (b : Bool) :
    (Field.newFromParent p s).toUrl = p.toUrl ∧
    (Field.setShowInDisplayFormRequest f b).url = f.toUrl ∧
    (Field.setShowInEditFormRequest f b).url = f.toUrl ∧
    (Field.setShowInNewFormRequest f b).url = f.toUrl :=
  ⟨rfl, rfl, rfl, rfl⟩

/-- C6: evaluation at the failing input. Fields over base "u" resolves to
"u/fields"; getByTitle("T") hands the selector fragment to the Field
constructor, which drops it, so the resulting URL is bare "u/fields" instead
of the claimed "u/fields/getByTitle(&#39;T&#39;)"; getById pre-concatenates
onto the collection URL string and does carry its selector. -/
theorem C6_getByTitle_eval :
    (Fields.getByTitle (Fields.newFromUrl "u" "fields") "T").toUrl = "u/fields" ∧
    (Fields.getByTitle (Fields.newFromUrl "u" "fields") "T").toUrl
      ≠ "u/fields/getByTitle(\x27T\x27)" ∧
    (Fields.getById (Fields.newFromUrl "u" "fields") "7b7c").toUrl
      = "u/fields(\x277b7c\x27)" :=
  ⟨rfl, by decide, rfl⟩

/-- Setting a key absent from a string-keyed map appends the new entry. -/
theorem setEntry_of_not_mem {α : Type} (m : List (String × α)) (k : String)
    (v : α) (h : k ∉ m.map Prod.fst) : setEntry m k v = m ++ [(k, v)] := by
  induction m with
  | nil => rfl
  | cons hd tl ih =>
      simp only [List.map_cons, List.mem_cons] at h
      push_neg at h
      simp only [setEntry, List.cons_append]
      rw [if_neg (fun e => h.1 (e.symm)), ih h.2]

/-- Extending a base object with members whose keys are fresh and pairwise
distinct appends them in order. -/
theorem extendObj_append (base props : List (String × JVal))
    (hdisj : ∀ k ∈ props.map Prod.fst, k ∉ base.map Prod.fst)
    (hnodup : (props.map Prod.fst).Nodup) :
    extendObj base props = base ++ props := by
  induction props generalizing base with
  | nil => simp [extendObj]
  | cons hd tl ih =>
      simp only [List.map_cons, List.nodup_cons] at hnodup
      have hfresh : hd.1 ∉ base.map Prod.fst := by
        exact hdisj hd.1 (by simp)
      have step : extendObj base (hd :: tl) = extendObj (base ++ [hd]) tl := by
        simp only [extendObj, List.foldl_cons]
        rw [setEntry_of_not_mem base hd.1 hd.2 hfresh]
      rw [step, ih (base ++ [hd])]
      · simp
      · intro k hk
        simp only [List.map_append, List.mem_append, List.map_cons]
        push_neg
        refine ⟨hdisj k (by simp [hk]), ?_⟩
        simp only [List.map_nil, List.mem_singleton]
        intro e
        exact hnodup.1 (e ▸ hk)
      · exact hnodup.2

/-- C5: counterexample. For createFieldAsXml("x") the serialized top-level
object has a single "parameters" member and no "__metadata" member, so the
POST body is not the serialization of an object whose __metadata member is
the type tag with the remaining members the supplied properties. -/
theorem C5_createFieldAsXml_counterexample :
    lookupEntry (Fields.createFieldAsXmlBodyObj [("SchemaXml", JVal.str "x")])
      "__metadata" = none ∧
    (Fields.createFieldAsXmlRequest (Fields.newFromUrl "u" "fields")
        [("SchemaXml", JVal.str "x")]).body
      = some ("\x7b\"parameters\":\x7b\"__metadata\":\x7b\"type\":\"SP.XmlSchemaFieldCreationInformation\"\x7d,\"SchemaXml\":\"x\"\x7d\x7d") :=
  ⟨rfl, rfl⟩

/-- C5 (amended): Fields.add posts the JSON serialization of an object whose
first member is the __metadata type tag, then Title, then the supplied
properties; Fields.createFieldAsXml instead wraps that shape in a single
"parameters" member, inside which the __metadata tag carries
SP.XmlSchemaFieldCreationInformation followed by the supplied schema info.
Fresh, pairwise-distinct property keys are assumed so that Util.extend is a
plain append. -/
theorem C5_amended_post_bodies (fields : Queryable) (title ft : String)
    (props info : List (String × JVal))
    (h1 : "__metadata" ∉ props.map Prod.fst)
    (h2 : "Title" ∉ props.map Prod.fst)
    (h3 : (props.map Prod.fst).Nodup)
    (h4 : "__metadata" ∉ info.map Prod.fst)
    (h5 : (info.map Prod.fst).Nodup) :
    (Fields.addRequest fields title ft props).method = "POST" ∧
    (Fields.addRequest fields title ft props).body
      = some (JVal.stringify (JVal.obj
          (("__metadata", JVal.obj [("type", JVal.str ft)])
            :: ("Title", JVal.str title) :: props))) ∧
    (Fields.createFieldAsXmlRequest fields info).method = "POST" ∧
    (Fields.createFieldAsXmlRequest fields info).body
      = some (JVal.stringify (JVal.obj
          [("parameters", JVal.obj
            (("__metadata",
              JVal.obj [("type", JVal.str "SP.XmlSchemaFieldCreationInformation")])
              :: info))])) := by
  have hadd : Fields.addBodyObj title ft props
      = ("__metadata", JVal.obj [("type", JVal.str ft)])
          :: ("Title", JVal.str title) :: props := by
    have := extendObj_append
      [("__metadata", JVal.obj [("type", JVal.str ft)]), ("Title", JVal.str title)]
      props
      (by
        intro k hk
        simp only [List.map_cons, List.map_nil, List.mem_cons, List.not_mem_nil]
        push_neg
        refine ⟨?_, ?_, fun h => h⟩
        · intro e; exact h1 (e ▸ hk)
        · intro e; exact h2 (e ▸ hk))
      h3
    simpa [Fields.addBodyObj] using this
  have hxml : Fields.createFieldAsXmlBodyObj info
      = [("parameters", JVal.obj
          (("__metadata",
            JVal.obj [("type", JVal.str "SP.XmlSchemaFieldCreationInformation")])
            :: info))] := by
    have := extendObj_append
      [("__metadata",
        JVal.obj [("type", JVal.str "SP.XmlSchemaFieldCreationInformation")])]
      info
      (by
        intro k hk
        simp only [List.map_cons, List.map_nil, List.mem_cons, List.not_mem_nil]
        push_neg
        exact ⟨fun e => h4 (e ▸ hk), fun h => h⟩)
      h5
    simpa [Fields.createFieldAsXmlBodyObj] using this
  refine ⟨rfl, ?_, rfl, ?_⟩
  · simp [Fields.addRequest, hadd]
  · simp [Fields.createFieldAsXmlRequest, hxml]

/-- C5 (amended), witness at Fields over "u", add("T", "SP.FieldText",
FieldTypeKind 2) and createFieldAsXml with SchemaXml "x". -/
theorem C5_amended_post_bodies_witness :
    ("__metadata" ∉ ([("FieldTypeKind", JVal.num 2)].map Prod.fst)) ∧
    ((Fields.addRequest (Fields.newFromUrl "u" "fields") "T" "SP.FieldText"
        [("FieldTypeKind", JVal.num 2)]).body
      = some (JVal.stringify (JVal.obj
          (("__metadata", JVal.obj [("type", JVal.str "SP.FieldText")])
            :: ("Title", JVal.str "T") :: [("FieldTypeKind", JVal.num 2)]))) ∧
    (Fields.createFieldAsXmlRequest (Fields.newFromUrl "u" "fields")
        [("SchemaXml", JVal.str "x")]).body
      = some (JVal.stringify (JVal.obj
          [("parameters", JVal.obj
            (("__metadata",
              JVal.obj [("type", JVal.str "SP.XmlSchemaFieldCreationInformation")])
              :: [("SchemaXml", JVal.str "x")]))]))) :=
  ⟨by decide,
    (C5_amended_post_bodies (Fields.newFromUrl "u" "fields") "T" "SP.FieldText"
      [("FieldTypeKind", JVal.num 2)] [("SchemaXml", JVal.str "x")]
      (by decide) (by decide) (by decide) (by decide) (by decide)).2.1,
    (C5_amended_post_bodies (Fields.newFromUrl "u" "fields") "T" "SP.FieldText"
      [("FieldTypeKind", JVal.num 2)] [("SchemaXml", JVal.str "x")]
      (by decide) (by decide) (by decide) (by decide) (by decide)).2.2.2⟩

/-- A response row of the configuration list: the Title column may be absent
at runtime even though the merge-side code types it as string. -/
structure ConfigRow where
  title : Option String
  value : String
deriving Repr, DecidableEq

/-- JavaScript property-key coercion: a missing (undefined) Title is coerced
to the string key "undefined" when used as an object property key. -/
def jsPropKey : Option String → String
  | some s => s
  | none => "undefined"

/-- An own property of a JS object: key, string value, and whether it is
enumerable. -/
structure JSProp where
  key : String
  value : String
  enumerable : Bool
deriving Repr, DecidableEq

/-- Plain JS assignment obj[k] = v: an existing property keeps its position
and attributes and gets the new value; a fresh key appends an enumerable
property. -/
def jsAssign : List JSProp → String → String → List JSProp
  | [], k, v => [⟨k, v, true⟩]
  | p :: rest, k, v =>
      if p.key = k then ⟨k, v, p.enumerable⟩ :: rest else p :: jsAssign rest k v

/-- Object.defineProperty(obj, k, enumerable/configurable/writable false,
value v) as used inside the merge-side reduce, where every existing property
was itself created this way: a fresh key appends a non-enumerable property;
redefining an existing one succeeds only when nothing would change, else it
throws a TypeError. -/
def definePropNE (obj : List JSProp) (k v : String) : Except String (List JSProp) :=
  match lookupProp obj k with
  | none => Except.ok (obj ++ [⟨k, v, false⟩])
  | some p =>
      if p.value = v ∧ p.enumerable = false then Except.ok obj
      else Except.error "TypeError: cannot redefine property"
where
  lookupProp : List JSProp → String → Option JSProp
    | [], _ => none
    | p :: rest, k0 => if p.key = k0 then some p else lookupProp rest k0

/-- JS property read obj[k] (works whether or not the property is
enumerable). -/
def jsGet (obj : List JSProp) (k : String) : Option String :=
  match obj with
  | [] => none
  | p :: rest => if p.key = k then some p.value else jsGet rest k

/-- The keys enumeration of a JS object sees: own enumerable properties in
insertion order. -/
def enumKeys (obj : List JSProp) : List String :=
  (obj.filter (fun p => p.enumerable)).map (fun p => p.key)

/-- The HEAD-side row conversion of getConfiguration
(spListConfigurationProvider.ts, HEAD branch): forEach with plain assignment
configuration[i.Title] = i.Value over an initially empty object. -/
def headGetConfiguration (rows : List ConfigRow) : List JSProp :=
  rows.foldl (fun cfg r => jsAssign cfg (jsPropKey r.title) r.value) []

/-- The merge-side row conversion of getConfiguration
(spListConfigurationProvider.ts, incoming branch): reduce with
Object.defineProperty(configuration, item.Title, configurable/enumerable/
writable false, value item.Value) over an initially empty object. -/
def mergeGetConfiguration (rows : List ConfigRow) : Except String (List JSProp) :=
  rows.foldlM (fun cfg r => definePropNE cfg (jsPropKey r.title) r.value) []

/-- The example response rows of the claim: Title A with Value 1 and Title B
with Value 2. -/
def exampleRows : List ConfigRow :=
  [⟨some "A", "1"⟩, ⟨some "B", "2"⟩]

/-- A JS property read succeeds exactly when the key is among the object's
keys. -/
theorem jsGet_isSome_iff (obj : List JSProp) (k : String) :
    (jsGet obj k).isSome = true ↔ k ∈ obj.map JSProp.key := by
  induction obj with
  | nil => simp [jsGet]
  | cons p rest ih =>
      by_cases h : p.key = k
      · simp [jsGet, h]
      · simp only [jsGet, if_neg h, List.map_cons, List.mem_cons, ih]
        constructor
        · exact Or.inr
        · rintro (e | hm)
          · exact absurd e.symm h
          · exact hm

/-- Assignment preserves the existing keys and makes the assigned key
present. -/
theorem jsAssign_keys (obj : List JSProp) (k v : String) :
    (jsAssign obj k v).map JSProp.key
      = if k ∈ obj.map JSProp.key then obj.map JSProp.key
        else obj.map JSProp.key ++ [k] := by
  induction obj with
  | nil => simp [jsAssign]
  | cons p rest ih =>
      by_cases h : p.key = k
      · subst h
        simp [jsAssign]
      · have h' : ¬ k = p.key := fun e => h e.symm
        by_cases hm : k ∈ rest.map JSProp.key
        · simp [jsAssign, h, ih, hm, h']
        · simp [jsAssign, h, ih, hm, h']

/-- Keys already present survive an assignment, and the assigned key is
present afterwards. -/
theorem jsAssign_keys_subset (obj : List JSProp) (k v : String) :
    obj.map JSProp.key ⊆ (jsAssign obj k v).map JSProp.key ∧
    k ∈ (jsAssign obj k v).map JSProp.key := by
  rw [jsAssign_keys]
  by_cases hm : k ∈ obj.map JSProp.key
  · simp [hm]
  · simp [hm]

/-- The auxiliary property lookup of definePropNE finds no property exactly
when the key is absent. -/
theorem lookupProp_eq_none_iff (obj : List JSProp) (k : String) :
    definePropNE.lookupProp obj k = none ↔ k ∉ obj.map JSProp.key := by
  induction obj with
  | nil => simp [definePropNE.lookupProp]
  | cons p rest ih =>
      by_cases h : p.key = k
      · simp [definePropNE.lookupProp, h]
      · have h' : ¬ k = p.key := fun e => h e.symm
        simp [definePropNE.lookupProp, h, ih, h']

/-- Defining a property under a fresh key appends a non-enumerable
property. -/
theorem definePropNE_of_not_mem (obj : List JSProp) (k v : String)
    (h : k ∉ obj.map JSProp.key) :
    definePropNE obj k v = Except.ok (obj ++ [⟨k, v, false⟩]) := by
  unfold definePropNE
  rw [(lookupProp_eq_none_iff obj k).2 h]

/-- A successful defineProperty preserves the existing keys and makes the
defined key present. -/
theorem definePropNE_ok_keys (obj : List JSProp) (k v : String)
    (res : List JSProp) (h : definePropNE obj k v = Except.ok res) :
    obj.map JSProp.key ⊆ res.map JSProp.key ∧ k ∈ res.map JSProp.key := by
  unfold definePropNE at h
  cases hl : definePropNE.lookupProp obj k with
  | none =>
      rw [hl] at h
      cases h
      constructor
      · intro a ha
        rw [List.map_append]
        exact List.mem_append_left _ ha
      · rw [List.map_append]
        apply List.mem_append_right
        simp
  | some p =>
      rw [hl] at h
      have hk : k ∈ obj.map JSProp.key := by
        by_contra hk
        rw [(lookupProp_eq_none_iff obj k).2 hk] at hl
        cases hl
      have h' : (if p.value = v ∧ p.enumerable = false then Except.ok obj
          else (Except.error "TypeError: cannot redefine property" :
            Except String (List JSProp))) = Except.ok res := h
      by_cases hc : p.value = v ∧ p.enumerable = false
      · rw [if_pos hc] at h'
        cases h'
        exact ⟨fun a ha => ha, hk⟩
      · rw [if_neg hc] at h'
        cases h'

/-- Every key present in the accumulator or contributed by some row is
present after the HEAD-side assignment fold. -/
theorem headFold_key_present (rows : List ConfigRow) (acc : List JSProp)
    (k : String)
    (h : k ∈ acc.map JSProp.key ∨ ∃ r ∈ rows, jsPropKey r.title = k) :
    k ∈ ((rows.foldl (fun cfg r => jsAssign cfg (jsPropKey r.title) r.value)
      acc).map JSProp.key) := by
  induction rows generalizing acc with
  | nil =>
      rcases h with hacc | ⟨r, hr, _⟩
      · simpa using hacc
      · cases hr
  | cons r0 rest ih =>
      rw [List.foldl_cons]
      apply ih
      rcases h with hacc | ⟨r, hr, hk⟩
      · exact Or.inl ((jsAssign_keys_subset acc (jsPropKey r0.title) r0.value).1 hacc)
      · rcases List.mem_cons.1 hr with rfl | hr'
        · exact Or.inl (hk ▸ (jsAssign_keys_subset acc (jsPropKey r.title) r.value).2)
        · exact Or.inr ⟨r, hr', hk⟩

/-- Every key present in the accumulator or contributed by some row is
present in a successful result of the merge-side defineProperty fold. -/
theorem mergeFold_key_present (rows : List ConfigRow) (acc : List JSProp)
    (k : String) (m : List JSProp)
    (hm : rows.foldlM (fun cfg r => definePropNE cfg (jsPropKey r.title) r.value)
      acc = Except.ok m)
    (h : k ∈ acc.map JSProp.key ∨ ∃ r ∈ rows, jsPropKey r.title = k) :
    k ∈ m.map JSProp.key := by
  induction rows generalizing acc with
  | nil =>
      cases hm
      rcases h with hacc | ⟨r, hr, _⟩
      · exact hacc
      · cases hr
  | cons r0 rest ih =>
      rw [List.foldlM_cons] at hm
      cases hf : definePropNE acc (jsPropKey r0.title) r0.value with
      | error e =>
          rw [hf] at hm
          cases hm
      | ok acc' =>
          rw [hf] at hm
          have hm' : rest.foldlM
              (fun cfg r => definePropNE cfg (jsPropKey r.title) r.value) acc'
              = Except.ok m := hm
          apply ih acc' hm'
          rcases h with hacc | ⟨r, hr, hk⟩
          · exact Or.inl
              ((definePropNE_ok_keys acc (jsPropKey r0.title) r0.value acc' hf).1 hacc)
          · rcases List.mem_cons.1 hr with rfl | hr'
            · exact Or.inl
                (hk ▸ (definePropNE_ok_keys acc (jsPropKey r.title) r.value acc' hf).2)
            · exact Or.inr ⟨r, hr', hk⟩


/-- Assigning a fresh key appends an enumerable property. -/
theorem jsAssign_of_not_mem (obj : List JSProp) (k v : String)
    (h : k ∉ obj.map JSProp.key) : jsAssign obj k v = obj ++ [⟨k, v, true⟩] := by
  induction obj with
  | nil => rfl
  | cons p rest ih =>
      simp only [List.map_cons, List.mem_cons] at h
      push_neg at h
      simp only [jsAssign, List.cons_append]
      rw [if_neg (fun e => h.1 e.symm), ih h.2]

/-- The HEAD-side assignment fold over rows with pairwise-distinct fresh keys
appends one enumerable property per row, in order. -/
theorem headFold_append (rows : List ConfigRow) (acc : List JSProp)
    (hdisj : ∀ r ∈ rows, jsPropKey r.title ∉ acc.map JSProp.key)
    (hnd : (rows.map (fun r => jsPropKey r.title)).Nodup) :
    rows.foldl (fun cfg r => jsAssign cfg (jsPropKey r.title) r.value) acc
      = acc ++ rows.map (fun r => ⟨jsPropKey r.title, r.value, true⟩) := by
  induction rows generalizing acc with
  | nil => simp
  | cons r0 rest ih =>
      simp only [List.map_cons, List.nodup_cons] at hnd
      rw [List.foldl_cons,
        jsAssign_of_not_mem acc (jsPropKey r0.title) r0.value
          (hdisj r0 (List.mem_cons_self r0 rest))]
      have hih := ih (acc ++ [(⟨jsPropKey r0.title, r0.value, true⟩ : JSProp)])
        (by
          intro r hr
          rw [List.map_append, List.mem_append]
          push_neg
          refine ⟨hdisj r (List.mem_cons_of_mem r0 hr), ?_⟩
          simp only [List.map_cons, List.map_nil, List.mem_singleton]
          intro e
          exact hnd.1 (e ▸ List.mem_map_of_mem (fun r => jsPropKey r.title) hr))
        hnd.2
      rw [hih]
      simp

/-- The merge-side defineProperty fold over rows with pairwise-distinct fresh
keys succeeds and appends one non-enumerable property per row, in order. -/
theorem mergeFold_append (rows : List ConfigRow) (acc : List JSProp)
    (hdisj : ∀ r ∈ rows, jsPropKey r.title ∉ acc.map JSProp.key)
    (hnd : (rows.map (fun r => jsPropKey r.title)).Nodup) :
    rows.foldlM (fun cfg r => definePropNE cfg (jsPropKey r.title) r.value) acc
      = Except.ok
          (acc ++ rows.map (fun r => ⟨jsPropKey r.title, r.value, false⟩)) := by
  induction rows generalizing acc with
  | nil =>
      rw [List.map_nil, List.append_nil]
      rfl
  | cons r0 rest ih =>
      simp only [List.map_cons, List.nodup_cons] at hnd
      rw [List.foldlM_cons,
        definePropNE_of_not_mem acc (jsPropKey r0.title) r0.value
          (hdisj r0 (List.mem_cons_self r0 rest))]
      have hih := ih (acc ++ [(⟨jsPropKey r0.title, r0.value, false⟩ : JSProp)])
        (by
          intro r hr
          rw [List.map_append, List.mem_append]
          push_neg
          refine ⟨hdisj r (List.mem_cons_of_mem r0 hr), ?_⟩
          simp only [List.map_cons, List.map_nil, List.mem_singleton]
          intro e
          exact hnd.1 (e ▸ List.mem_map_of_mem (fun r => jsPropKey r.title) hr))
        hnd.2
      have hbind :
          (Except.ok (acc ++ [(⟨jsPropKey r0.title, r0.value, false⟩ : JSProp)]) >>=
            fun acc' => rest.foldlM
              (fun cfg r => definePropNE cfg (jsPropKey r.title) r.value) acc')
          = rest.foldlM (fun cfg r => definePropNE cfg (jsPropKey r.title) r.value)
              (acc ++ [(⟨jsPropKey r0.title, r0.value, false⟩ : JSProp)]) := rfl
      rw [hbind, hih]
      simp

/-- In an object with pairwise-distinct keys, reading the key of any member
property yields its value. -/
theorem jsGet_of_mem (l : List JSProp) (hnd : (l.map JSProp.key).Nodup)
    (p : JSProp) (hp : p ∈ l) : jsGet l p.key = some p.value := by
  induction l with
  | nil => cases hp
  | cons q rest ih =>
      simp only [List.map_cons, List.nodup_cons] at hnd
      rcases List.mem_cons.1 hp with rfl | hp'
      · simp [jsGet]
      · have hq : ¬ q.key = p.key := by
          intro e
          exact hnd.1 (e ▸ List.mem_map_of_mem JSProp.key hp')
        simp only [jsGet, if_neg hq]
        exact ih hnd.2 hp'

/-- Enumeration of an all-enumerable row image lists every row key in
order. -/
theorem enumKeys_map_true (rows : List ConfigRow) :
    enumKeys (rows.map (fun r => (⟨jsPropKey r.title, r.value, true⟩ : JSProp)))
      = rows.map (fun r => jsPropKey r.title) := by
  induction rows with
  | nil => rfl
  | cons r rest ih =>
      simp only [enumKeys, List.map_cons, List.filter_cons] at ih ⊢
      simpa using ih

/-- Enumeration of an all-non-enumerable row image is empty. -/
theorem enumKeys_map_false (rows : List ConfigRow) :
    enumKeys (rows.map (fun r => (⟨jsPropKey r.title, r.value, false⟩ : JSProp)))
      = [] := by
  simp [enumKeys, List.filter_map]

/-- C7: counterexample. On the single response row with a missing Title and
Value "v", both conversion branches store the value under the property key
"undefined" (and the merge branch resolves rather than rejecting), so the
resulting mapping does contain an entry for the missing Title. -/
theorem C7_missing_title_counterexample :
    jsGet (headGetConfiguration [⟨none, "v"⟩]) "undefined" = some "v" ∧
    (mergeGetConfiguration [⟨none, "v"⟩]).map (fun m => jsGet m "undefined")
      = Except.ok (some "v") :=
  ⟨rfl, rfl⟩

/-- C7 (amended): a response row with a missing Title is neither rejected nor
dropped: JavaScript property-key coercion stores its value under the key
"undefined", so whenever some row's Title is missing, the resulting mapping
(either conversion branch, when the merge-side reduce succeeds) has an entry
under the key "undefined". -/
theorem C7_amended_missing_title (rows : List ConfigRow) (r : ConfigRow)
    (hr : r ∈ rows) (hnone : r.title = none) :
    (jsGet (headGetConfiguration rows) "undefined").isSome = true ∧
    ∀ m, mergeGetConfiguration rows = Except.ok m →
      (jsGet m "undefined").isSome = true := by
  constructor
  · rw [jsGet_isSome_iff]
    exact headFold_key_present rows [] "undefined"
      (Or.inr ⟨r, hr, by rw [hnone]; rfl⟩)
  · intro m hm
    rw [jsGet_isSome_iff]
    exact mergeFold_key_present rows [] "undefined" m hm
      (Or.inr ⟨r, hr, by rw [hnone]; rfl⟩)

/-- C7 (amended), witness at the single row with missing Title and Value
"v". -/
theorem C7_amended_missing_title_witness :
    ((⟨none, "v"⟩ : ConfigRow) ∈ ([⟨none, "v"⟩] : List ConfigRow)) ∧
    (jsGet (headGetConfiguration [⟨none, "v"⟩]) "undefined").isSome = true ∧
    ∀ m, mergeGetConfiguration [⟨none, "v"⟩] = Except.ok m →
      (jsGet m "undefined").isSome = true :=
  ⟨List.mem_singleton.2 rfl,
    (C7_amended_missing_title [⟨none, "v"⟩] ⟨none, "v"⟩
      (List.mem_singleton.2 rfl) rfl).1,
    (C7_amended_missing_title [⟨none, "v"⟩] ⟨none, "v"⟩
      (List.mem_singleton.2 rfl) rfl).2⟩

/-- C1: counterexample. On the claim's example rows, the merge-side
conversion of getConfiguration (the branch consistent with the class's
declared sourceWeb member) defines every property with enumerable false, so
enumerating the resulting mapping yields no keys instead of exactly A and
B. -/
theorem C1_enumeration_counterexample :
    (mergeGetConfiguration exampleRows).map enumKeys
      = Except.ok ([] : List String) ∧
    ([] : List String) ≠ ["A", "B"] :=
  ⟨rfl, by decide⟩

/-- C1 (amended): for response rows with pairwise-distinct property keys,
both conversion branches of getConfiguration produce a mapping in which
looking up each row's Title yields its Value; enumerating the mapping yields
exactly the row titles under the HEAD-side plain-assignment branch, while
under the merge-side defineProperty branch (enumerable false) every lookup
still succeeds but enumeration yields no keys at all. -/
theorem C1_amended_title_value_mapping (rows : List ConfigRow)
    (hnd : (rows.map (fun r => jsPropKey r.title)).Nodup) :
    (∀ r ∈ rows,
      jsGet (headGetConfiguration rows) (jsPropKey r.title) = some r.value) ∧
    enumKeys (headGetConfiguration rows)
      = rows.map (fun r => jsPropKey r.title) ∧
    mergeGetConfiguration rows
      = Except.ok
          (rows.map (fun r => (⟨jsPropKey r.title, r.value, false⟩ : JSProp))) ∧
    (∀ r ∈ rows,
      jsGet (rows.map (fun r => (⟨jsPropKey r.title, r.value, false⟩ : JSProp)))
        (jsPropKey r.title) = some r.value) ∧
    enumKeys (rows.map (fun r => (⟨jsPropKey r.title, r.value, false⟩ : JSProp)))
      = [] := by
  have hkeys_true :
      (rows.map (fun r => (⟨jsPropKey r.title, r.value, true⟩ : JSProp))).map
        JSProp.key = rows.map (fun r => jsPropKey r.title) := by
    rw [List.map_map]
    rfl
  have hkeys_false :
      (rows.map (fun r => (⟨jsPropKey r.title, r.value, false⟩ : JSProp))).map
        JSProp.key = rows.map (fun r => jsPropKey r.title) := by
    rw [List.map_map]
    rfl
  have hhead : headGetConfiguration rows
      = rows.map (fun r => (⟨jsPropKey r.title, r.value, true⟩ : JSProp)) := by
    have := headFold_append rows [] (by simp) hnd
    simpa [headGetConfiguration] using this
  refine ⟨?_, ?_, ?_, ?_, ?_⟩
  · intro r hr
    rw [hhead]
    have := jsGet_of_mem
      (rows.map (fun r => (⟨jsPropKey r.title, r.value, true⟩ : JSProp)))
      (by rw [hkeys_true]; exact hnd)
      ⟨jsPropKey r.title, r.value, true⟩
      (List.mem_map_of_mem (fun r => (⟨jsPropKey r.title, r.value, true⟩ : JSProp)) hr)
    exact this
  · rw [hhead]
    exact enumKeys_map_true rows
  · have := mergeFold_append rows [] (by simp) hnd
    simpa [mergeGetConfiguration] using this
  · intro r hr
    have := jsGet_of_mem
      (rows.map (fun r => (⟨jsPropKey r.title, r.value, false⟩ : JSProp)))
      (by rw [hkeys_false]; exact hnd)
      ⟨jsPropKey r.title, r.value, false⟩
      (List.mem_map_of_mem (fun r => (⟨jsPropKey r.title, r.value, false⟩ : JSProp)) hr)
    exact this
  · exact enumKeys_map_false rows

/-- C1 (amended), witness at the claim's example rows A-1 and B-2. -/
theorem C1_amended_title_value_mapping_witness :
    ((exampleRows.map (fun r => jsPropKey r.title)).Nodup) ∧
    jsGet (headGetConfiguration exampleRows) "A" = some "1" ∧
    jsGet (headGetConfiguration exampleRows) "B" = some "2" ∧
    enumKeys (headGetConfiguration exampleRows) = ["A", "B"] ∧
    (mergeGetConfiguration exampleRows).map (fun m => jsGet m "A")
      = Except.ok (some "1") ∧
    (mergeGetConfiguration exampleRows).map (fun m => jsGet m "B")
      = Except.ok (some "2") ∧
    (mergeGetConfiguration exampleRows).map enumKeys = Except.ok [] :=
  ⟨by decide,
    (C1_amended_title_value_mapping exampleRows (by decide)).1
      ⟨some "A", "1"⟩ (by decide),
    (C1_amended_title_value_mapping exampleRows (by decide)).1
      ⟨some "B", "2"⟩ (by decide),
    by
      rw [((C1_amended_title_value_mapping exampleRows (by decide)).2.1 :
        enumKeys (headGetConfiguration exampleRows) = _)]
      rfl,
    by
      rw [(C1_amended_title_value_mapping exampleRows (by decide)).2.2.1]
      rfl,
    by
      rw [(C1_amended_title_value_mapping exampleRows (by decide)).2.2.1]
      rfl,
    by
      rw [(C1_amended_title_value_mapping exampleRows (by decide)).2.2.1]
      rfl⟩

/-- SPListConfigurationProvider holds the source web and the configuration
list title (spListConfigurationProvider.ts, constructor; the web is carried
as a Queryable since only its toUrl participates here). -/
structure SPListConfigurationProvider where
  sourceWeb : Queryable
  sourceListTitle : String
deriving Repr, DecidableEq

/-- The cache key computed by asCaching (spListConfigurationProvider.ts,
incoming branch, the one consistent with the class's declared sourceWeb
member): splist_ followed by the web URL, a plus sign, and the list title. -/
def SPListConfigurationProvider.asCachingKey
    (p : SPListConfigurationProvider) : String :=
  "splist_" ++ p.sourceWeb.toUrl ++ "+" ++ p.sourceListTitle

/-- C3: asCaching derives the cache key deterministically from the web URL
and the list title, so any two providers over the same source web URL and
list title compute the same cache key. -/
theorem C3_asCaching_cache_key (p1 p2 : SPListConfigurationProvider)
    (hw : p1.sourceWeb.toUrl = p2.sourceWeb.toUrl)
    (ht : p1.sourceListTitle = p2.sourceListTitle) :
    p1.asCachingKey = p2.asCachingKey ∧
    p1.asCachingKey
      = "splist_" ++ p1.sourceWeb.toUrl ++ "+" ++ p1.sourceListTitle := by
  unfold SPListConfigurationProvider.asCachingKey
  rw [hw, ht]
  exact ⟨rfl, rfl⟩

/-- C3, witness at two providers over the same web URL (with different query
state) and the list title config. -/
theorem C3_asCaching_cache_key_witness :
    (⟨⟨"https://w", []⟩, "config"⟩ :
      SPListConfigurationProvider).sourceWeb.toUrl
      = (⟨⟨"https://w", [("$top", "1")]⟩, "config"⟩ :
          SPListConfigurationProvider).sourceWeb.toUrl ∧
    (⟨⟨"https://w", []⟩, "config"⟩ :
      SPListConfigurationProvider).asCachingKey
      = (⟨⟨"https://w", [("$top", "1")]⟩, "config"⟩ :
          SPListConfigurationProvider).asCachingKey ∧
    (⟨⟨"https://w", []⟩, "config"⟩ :
      SPListConfigurationProvider).asCachingKey = "splist_https://w+config" :=
  ⟨rfl,
    (C3_asCaching_cache_key ⟨⟨"https://w", []⟩, "config"⟩
      ⟨⟨"https://w", [("$top", "1")]⟩, "config"⟩ rfl rfl).1,
    rfl⟩

/-- A cache record: the cached mapping plus its absolute expiration
timestamp (spec 3, CacheRecord). -/
structure CacheRecord where
  value : List (String × String)
  expiration : Nat
deriving Repr, DecidableEq

/-- The process-wide cache: a mapping from cache key to record (spec 5). -/
structure CacheState where
  store : List (String × CacheRecord)
deriving Repr, DecidableEq

/-- The observable outcome of one CachingConfigurationProvider call: the
resolved or rejected value, the cache state afterwards, and whether the inner
provider was consulted. -/
structure CacheGetOutcome where
  result : Except String (List (String × String))
  state : CacheState
  innerCalled : Bool

/-- Modelled from the spec: the inner-load path of
CachingConfigurationProvider.getConfiguration (spec 4.4) — a successful
inner load is stored as a fresh record expiring at now+ttl and resolved; a
failing one is propagated unchanged with the cache untouched. -/
def cachingLoad (cacheKey : String) (ttl now : Nat)
    (inner : Except String (List (String × String))) (st : CacheState) :
    CacheGetOutcome :=
  match inner with
  | .error e => ⟨.error e, st, true⟩
  | .ok v => ⟨.ok v, ⟨setEntry st.store cacheKey ⟨v, now + ttl⟩⟩, true⟩

/-- Modelled from the spec: cachingConfigurationProvider.ts is absent from
src/.  Per spec 4.4, getConfiguration resolves immediately from an unexpired
record under cacheKey without consulting the inner provider, and otherwise
performs the inner load; the inner load's outcome is passed in as a value. -/
def cachingGetConfiguration (cacheKey : String) (ttl now : Nat)
    (inner : Except String (List (String × String))) (st : CacheState) :
    CacheGetOutcome :=
  match lookupEntry st.store cacheKey with
  | some r =>
      if now < r.expiration then ⟨.ok r.value, st, false⟩
      else cachingLoad cacheKey ttl now inner st
  | none => cachingLoad cacheKey ttl now inner st

/-- C2: a failing inner load is propagated unchanged and never populates the
cache: whenever the inner provider is consulted and fails, the call rejects
with exactly the inner error and leaves the cache state untouched; in
particular, starting with no record under the key, the failing call stores
nothing and a subsequent call (before any successful load) still finds no
record and attempts a fresh inner load. -/
theorem C2_failed_load_not_cached (cacheKey : String) (ttl now now2 : Nat)
    (e : String) (st : CacheState)
    (inner2 : Except String (List (String × String)))
    (h : lookupEntry st.store cacheKey = none) :
    (cachingGetConfiguration cacheKey ttl now (Except.error e) st).result
      = Except.error e ∧
    (cachingGetConfiguration cacheKey ttl now (Except.error e) st).state = st ∧
    (cachingGetConfiguration cacheKey ttl now (Except.error e) st).innerCalled
      = true ∧
    lookupEntry
      ((cachingGetConfiguration cacheKey ttl now (Except.error e) st).state).store
      cacheKey = none ∧
    (cachingGetConfiguration cacheKey ttl now2 inner2
      (cachingGetConfiguration cacheKey ttl now (Except.error e) st).state).innerCalled
      = true ∧
    (∀ st3 : CacheState,
      (cachingGetConfiguration cacheKey ttl now (Except.error e) st3).innerCalled
        = true →
      (cachingGetConfiguration cacheKey ttl now (Except.error e) st3).result
        = Except.error e ∧
      (cachingGetConfiguration cacheKey ttl now (Except.error e) st3).state
        = st3) := by
  have hcall : cachingGetConfiguration cacheKey ttl now (Except.error e) st
      = ⟨Except.error e, st, true⟩ := by
    unfold cachingGetConfiguration
    rw [h]
    rfl
  refine ⟨by rw [hcall], by rw [hcall], by rw [hcall], by rw [hcall]; exact h,
    ?_, ?_⟩
  · rw [hcall]
    show (cachingGetConfiguration cacheKey ttl now2 inner2 st).innerCalled = true
    unfold cachingGetConfiguration
    rw [h]
    cases inner2 <;> rfl
  · intro st3 hinner
    cases hl : lookupEntry st3.store cacheKey with
    | none =>
        have hred : cachingGetConfiguration cacheKey ttl now (Except.error e) st3
            = ⟨Except.error e, st3, true⟩ := by
          unfold cachingGetConfiguration
          rw [hl]
          rfl
        rw [hred]
        exact ⟨rfl, rfl⟩
    | some r =>
        have hred : cachingGetConfiguration cacheKey ttl now (Except.error e) st3
            = if now < r.expiration
              then (⟨Except.ok r.value, st3, false⟩ : CacheGetOutcome)
              else (⟨Except.error e, st3, true⟩ : CacheGetOutcome) := by
          unfold cachingGetConfiguration
          rw [hl]
          rfl
        by_cases hexp : now < r.expiration
        · rw [hred, if_pos hexp] at hinner
          cases hinner
        · rw [hred, if_neg hexp]
          exact ⟨rfl, rfl⟩

/-- C2, witness at an empty cache. -/
theorem C2_failed_load_not_cached_witness :
    lookupEntry (CacheState.mk []).store "k" = none ∧
    (cachingGetConfiguration "k" 10 0 (Except.error "boom")
      (CacheState.mk [])).result = Except.error "boom" ∧
    (cachingGetConfiguration "k" 10 0 (Except.error "boom")
      (CacheState.mk [])).state = CacheState.mk [] ∧
    (cachingGetConfiguration "k" 10 5 (Except.ok [("a", "b")])
      (cachingGetConfiguration "k" 10 0 (Except.error "boom")
        (CacheState.mk [])).state).innerCalled = true :=
  ⟨rfl,
    (C2_failed_load_not_cached "k" 10 0 5 "boom" (CacheState.mk [])
      (Except.ok [("a", "b")]) rfl).1,
    (C2_failed_load_not_cached "k" 10 0 5 "boom" (CacheState.mk [])
      (Except.ok [("a", "b")]) rfl).2.1,
    (C2_failed_load_not_cached "k" 10 0 5 "boom" (CacheState.mk [])
      (Except.ok [("a", "b")]) rfl).2.2.2.2.1⟩

/-- In-place update of the node at one index of a node list, leaving every
other node untouched. -/
def setNode : List Queryable → Nat → (Queryable → Queryable) → List Queryable
  | [], _, _ => []
  | q :: rest, 0, f => f q :: rest
  | q :: rest, n + 1, f => q :: setNode rest n f

/-- Modelled from the spec: an object store of live Queryable nodes, making
the sharing structure explicit so that copy-on-derive is observable (spec 4.2
and 9, "read-only snapshot, not a live back-reference"). -/
structure QStore where
  nodes : List Queryable
deriving Repr, DecidableEq

/-- Modelled from the spec: deriving a child from the parent at pidx
registers a fresh node holding a copy of the parent's URL and query
parameters extended by the relative path; the parent node is not touched. -/
def QStore.deriveChild (st : QStore) (pidx : Nat) (path : Option String) :
    QStore :=
  match st.nodes[pidx]? with
  | some p => ⟨st.nodes ++ [queryableFromParent p path]⟩
  | none => st

/-- Mutating the query parameters of the node at cidx (the query accessor of
spec 4.2) rewrites that node in place. -/
def QStore.mutateChildQuery (st : QStore) (cidx : Nat) (k v : String) :
    QStore :=
  ⟨setNode st.nodes cidx (fun q => q.addQuery k v)⟩

/-- A whole sequence of query-parameter mutations applied to the node at
cidx. -/
def QStore.applyMutations (st : QStore) (cidx : Nat)
    (ops : List (String × String)) : QStore :=
  ops.foldl (fun s kv => s.mutateChildQuery cidx kv.1 kv.2) st

/-- Updating one index leaves every other index unchanged. -/
theorem setNode_getElem_ne (l : List Queryable) (i j : Nat)
    (f : Queryable → Queryable) (h : i ≠ j) : (setNode l j f)[i]? = l[i]? := by
  induction l generalizing i j with
  | nil => rfl
  | cons q rest ih =>
      cases j with
      | zero =>
          cases i with
          | zero => exact absurd rfl h
          | succ m => simp [setNode]
      | succ n =>
          cases i with
          | zero => simp [setNode]
          | succ m =>
              simp only [setNode, List.getElem?_cons_succ]
              exact ih m n (fun e => h (by rw [e]))

/-- Updating an out-of-range index changes nothing. -/
theorem setNode_of_length_le (l : List Queryable) (n : Nat)
    (f : Queryable → Queryable) (h : l.length ≤ n) : setNode l n f = l := by
  induction l generalizing n with
  | nil => rfl
  | cons q rest ih =>
      cases n with
      | zero => exact absurd h (by simp)
      | succ m =>
          simp only [setNode, List.cons.injEq, true_and]
          exact ih m (by simpa using h)

/-- A mutation sequence aimed at one index leaves every other index
unchanged. -/
theorem applyMutations_getElem_ne (ops : List (String × String)) (st : QStore)
    (cidx pidx : Nat) (h : pidx ≠ cidx) :
    (st.applyMutations cidx ops).nodes[pidx]? = st.nodes[pidx]? := by
  induction ops generalizing st with
  | nil => rfl
  | cons op rest ih =>
      have hstep : st.applyMutations cidx (op :: rest)
          = (st.mutateChildQuery cidx op.1 op.2).applyMutations cidx rest := rfl
      rw [hstep, ih (st.mutateChildQuery cidx op.1 op.2)]
      exact setNode_getElem_ne st.nodes pidx cidx _ h

/-- A mutation sequence aimed at an out-of-range index changes nothing. -/
theorem applyMutations_out_of_range (ops : List (String × String))
    (st : QStore) (cidx : Nat) (h : st.nodes.length ≤ cidx) :
    st.applyMutations cidx ops = st := by
  induction ops with
  | nil => rfl
  | cons op rest ih =>
      have hm : st.mutateChildQuery cidx op.1 op.2 = st := by
        unfold QStore.mutateChildQuery
        rw [setNode_of_length_le st.nodes cidx _ h]
      have hstep : st.applyMutations cidx (op :: rest)
          = (st.mutateChildQuery cidx op.1 op.2).applyMutations cidx rest := rfl
      rw [hstep, hm, ih]

/-- C8: copy-on-derive frame property. Deriving a child of the parent node at
pidx and then running any sequence of query-parameter mutations on the child
leaves the parent node — in particular its resolved URL and its
query-parameter map — exactly as before. -/
theorem C8_derive_child_frame (st : QStore) (pidx : Nat) (path : Option String)
    (ops : List (String × String)) :
    (((st.deriveChild pidx path).applyMutations st.nodes.length ops).nodes[pidx]?)
      = st.nodes[pidx]? ∧
    ((((st.deriveChild pidx path).applyMutations st.nodes.length
        ops).nodes[pidx]?).map Queryable.toUrl)
      = (st.nodes[pidx]?.map Queryable.toUrl) ∧
    ((((st.deriveChild pidx path).applyMutations st.nodes.length
        ops).nodes[pidx]?).map Queryable.query)
      = (st.nodes[pidx]?.map Queryable.query) := by
  have hmain :
      (((st.deriveChild pidx path).applyMutations st.nodes.length
        ops).nodes[pidx]?) = st.nodes[pidx]? := by
    by_cases hp : pidx < st.nodes.length
    · rw [applyMutations_getElem_ne ops (st.deriveChild pidx path)
        st.nodes.length pidx (Nat.ne_of_lt hp)]
      unfold QStore.deriveChild
      cases hn : st.nodes[pidx]? with
      | none => exact hn
      | some p =>
          show (st.nodes ++ [queryableFromParent p path])[pidx]? = some p
          rw [List.getElem?_append, if_pos hp]
          exact hn
    · have hge : st.nodes.length ≤ pidx := Nat.le_of_not_lt hp
      have hnone : st.nodes[pidx]? = none := List.getElem?_eq_none hge
      have hd : st.deriveChild pidx path = st := by
        unfold QStore.deriveChild
        rw [hnone]
      rw [hd, applyMutations_out_of_range ops st st.nodes.length (Nat.le_refl _)]
  exact ⟨hmain, by rw [hmain], by rw [hmain]⟩
